import Mathlib

/-!
Verification of the relevance & consistency engine of `machine-memory`
(a local knowledge store for autonomous agents backed by SQLite).

The definitions below are a shallow embedding of the TypeScript source:
  * `src/lib/cli/shared.ts`   — token model, scorer, fact comparator, merge
  * `src/lib/db.ts`           — storage layer (schema, busy retry)
  * `src/lib/cli/commands/*`  — add / update / deprecate / delete / doctor

Machine numbers are modelled with `Int`/`Rat`; JavaScript's
`Number.prototype.toFixed(3)` is modelled as rounding to the nearest
multiple of 1/1000.  Text is modelled as `String` over ASCII, and the
JavaScript regular expressions used by the source are modelled by
explicit character-class functions.
-/

namespace MachineMemory

/-! ### ASCII character helpers (model of JS `toLowerCase` and `[a-z0-9]+`) -/

/-- ASCII lower-casing of a single character (model of JS `toLowerCase`
restricted to ASCII input). -/
def asciiLower (c : Char) : Char :=
  if 65 ≤ c.toNat ∧ c.toNat ≤ 90 then Char.ofNat (c.toNat + 32) else c

/-- Lower-case token characters matched by the regex `[a-z0-9]+`. -/
def isTokenChar (c : Char) : Bool :=
  (97 ≤ c.toNat && c.toNat ≤ 122) || (48 ≤ c.toNat && c.toNat ≤ 57)

/-- Word characters of the regex class `\w`, i.e. `[A-Za-z0-9_]`. -/
def isWordChar (c : Char) : Bool :=
  (97 ≤ c.toNat && c.toNat ≤ 122) || (65 ≤ c.toNat && c.toNat ≤ 90)
    || (48 ≤ c.toNat && c.toNat ≤ 57) || c = '_'

/-- Split a character list into the maximal runs of characters satisfying
`p` (model of `String.prototype.match` with a `( ... )+` character class:
the list of matched substrings, in order). -/
def runsOf (p : Char → Bool) : List Char → List (List Char)
  | [] => []
  | c :: cs =>
    let rest := runsOf p cs
    if p c then
      match cs with
      | [] => [[c]]
      | c' :: _ =>
        if p c' then
          match rest with
          | [] => [[c]]
          | r :: rs => (c :: r) :: rs
        else [c] :: rest
    else rest

/-- All maximal `[a-z0-9]+` runs of the ASCII-lower-cased input, as strings. -/
def alnumRuns (s : String) : List String :=
  (runsOf isTokenChar (s.data.map asciiLower)).map List.asString

/-! ### Token model (`extractTerms`, `buildFtsQueryFromTerms`) -/

/-- The fixed stopword set of `extractTerms` in `shared.ts`. -/
def stopwords : List String :=
  ["the", "and", "with", "from", "that", "this", "into", "your", "have",
   "for", "are", "use", "uses", "using", "src", "lib", "app", "test", "tests"]

/-- De-duplicate a list, keeping the first occurrence of each element
(model of the `seen : Set` loop in `extractTerms` and of
`new Set(...)` insertion order). -/
def dedupFirst : List String → List String
  | [] => []
  | x :: xs => x :: (dedupFirst xs).filter (fun y => y ≠ x)

/-- `extractTerms` from `shared.ts`: lower-case, split on non-alphanumeric
runs, drop tokens shorter than 2 characters and stopwords, de-duplicate
preserving first-seen order. -/
def extractTerms (input : String) : List String :=
  dedupFirst ((alnumRuns input).filter
    (fun t => 2 ≤ t.length && !stopwords.contains t))

/-- `setFromTerms` from `shared.ts` (`new Set(extractTerms input)`): the
term set is represented as the duplicate-free list in insertion order. -/
def setFromTerms (input : String) : List String := extractTerms input

/-- `buildFtsQueryFromTerms`: keep at most the first 12 nonempty terms,
quote each (doubling embedded quotes) and join with ` OR `; `none`
(JS `undefined`) when no usable term remains. -/
def buildFtsQueryFromTerms (terms : List String) : Option String :=
  let usable := ((terms.filter (fun t => 0 < t.length)).take 12)
  if usable.isEmpty then none
  else some (String.intercalate " OR "
    (usable.map (fun t => "\"" ++ (t.replace "\"" "\"\"") ++ "\"")))

/-! ### Certainty and memory-type enums

The repository's current `constants.ts` is not present in the tree (the
checked-in copy is a stale revision that still lists the legacy aliases as
the canonical values, which the rest of `shared.ts` no longer typechecks
against), so the two constant lists are modelled from the spec. -/

/-- Modelled from the spec: `CERTAINTY_LEVELS`, the canonical certainty
enum `verified | inferred | speculative` of the current `constants.ts`
(missing from the tree; the stale checked-in copy predates the rename from
`hard | soft | uncertain`). -/
def CERTAINTY_LEVELS : List String := ["verified", "inferred", "speculative"]

/-- Modelled from the spec: `MEMORY_TYPES`, the seven-value memory-type
enum of the current `constants.ts` (missing from the tree; the stale
checked-in copy lists only the first five values). -/
def MEMORY_TYPES : List String :=
  ["decision", "convention", "gotcha", "preference", "constraint",
   "reference", "status"]

/-- `isCertainty` from `shared.ts`. -/
def isCertainty (value : String) : Bool := CERTAINTY_LEVELS.contains value

/-- `isMemoryType` from `shared.ts`. -/
def isMemoryType (value : String) : Bool := MEMORY_TYPES.contains value

/-- `LEGACY_CERTAINTY_ALIASES` from `shared.ts` (JS object lookup:
`none` models `undefined`). -/
def legacyCertaintyAlias (raw : String) : Option String :=
  if raw = "hard" then some "verified"
  else if raw = "soft" then some "inferred"
  else if raw = "uncertain" then some "speculative"
  else none

/-- `canonicalizeCertainty` from `shared.ts`. -/
def canonicalizeCertainty (raw : String) : Option String :=
  if isCertainty raw then some raw else legacyCertaintyAlias raw

/-- `normalizeCertaintyValue` from `shared.ts`; `none` models a non-string
stored value. -/
def normalizeCertaintyValue (value : Option String)
    (fallback : String := "inferred") : String :=
  match value with
  | none => fallback
  | some raw => (canonicalizeCertainty raw).getD fallback

/-! ### Rounding (model of JS `Number((x).toFixed(3))`) -/

/-- `toFixed(3)` re-parsed as a number: round to the nearest multiple of
`1/1000`. -/
def round3 (q : ℚ) : ℚ := (round (q * 1000) : ℤ) / 1000

/-! ### Fact comparator (`jaccardSimilarity`, `hasNegation`, `compareFact`) -/

/-- `jaccardSimilarity` from `shared.ts`.  The two term sets are given as
duplicate-free lists (JS `Set` in insertion order). -/
def jaccardSimilarity (left right : List String) : ℚ :=
  if left.length = 0 ∧ right.length = 0 then 1
  else
    let inter := (left.filter (fun t => right.contains t)).length
    let union := (dedupFirst (left ++ right)).length
    if union = 0 then 0 else round3 ((inter : ℚ) / (union : ℚ))

/-- `termsDifference` from `shared.ts`: elements of `source` absent from
`against`. -/
def termsDifference (source against : List String) : List String :=
  source.filter (fun t => !against.contains t)

/-- The apostrophe character, written by code point. -/
def apoChar : Char := Char.ofNat 39

/-- The negation words of the regex
`\b(not|no|never|without|cannot|can<apostrophe>t)\b` in `hasNegation`. -/
def negationWords : List (List Char) :=
  ["not".data, "no".data, "never".data, "without".data, "cannot".data,
   "can".data ++ [apoChar] ++ "t".data]

/-- No word character may sit immediately before a match (`\b` on the
left; `none` is the start of the string). -/
def boundaryBefore : Option Char → Bool
  | none => true
  | some c => !isWordChar c

/-- `w` matches at the front of `text` with a `\b` on the right. -/
def wordAtFront (w text : List Char) : Bool :=
  w.isPrefixOf text &&
    (match text.drop w.length with
     | [] => true
     | c :: _ => !isWordChar c)

/-- `w` matches somewhere in `text` with `\b` on both sides; `prev` is the
character immediately before `text`. -/
def hasWordFrom (w : List Char) : Option Char → List Char → Bool
  | _, [] => false
  | prev, c :: rest =>
    (boundaryBefore prev && wordAtFront w (c :: rest))
      || hasWordFrom w (some c) rest

/-- `hasNegation` from `shared.ts`: the negation regex tested against the
lower-cased text. -/
def hasNegation (text : String) : Bool :=
  let lower := text.data.map asciiLower
  negationWords.any (fun w => hasWordFrom w none lower)

/-- Result record of `compareFact`. -/
structure FactCheckResult where
  similarity : ℚ
  conflict : Bool
  addedTerms : List String
  removedTerms : List String
  deriving Repr, DecidableEq

/-- `compareFact` from `shared.ts`. -/
def compareFact (stored candidate : String) : FactCheckResult :=
  let storedTerms := setFromTerms stored
  let candidateTerms := setFromTerms candidate
  let similarity := jaccardSimilarity storedTerms candidateTerms
  let negationMismatch := hasNegation stored != hasNegation candidate
  { similarity := similarity
    conflict := negationMismatch || decide (similarity < 35/100)
    addedTerms := (termsDifference candidateTerms storedTerms).take 12
    removedTerms := (termsDifference storedTerms candidateTerms).take 12 }

/-! ### Scorer (`shared.ts`) -/

/-- `certaintyWeight` from `shared.ts` (`none` models a non-string stored
value). -/
def certaintyWeight (certainty : Option String) : ℚ :=
  let normalized := normalizeCertaintyValue certainty "speculative"
  if normalized = "verified" then 20
  else if normalized = "inferred" then 10
  else 2

/-- `parseTags` from `shared.ts`: split on commas, trim, drop empties. -/
def parseTags (tags : String) : List String :=
  ((tags.splitOn ",").map String.trim).filter (fun t => t ≠ "")

/-- ASCII lower-casing of a string. -/
def lowerString (s : String) : String := (s.data.map asciiLower).asString

/-- `recencyWeight` from `shared.ts`.  `now` and `updatedMs` are epoch
milliseconds; `none` models an unparseable `updated_at` (where
`sqliteDateToMs` returns `null`). -/
def recencyWeight (now : ℚ) (updatedMs : Option ℚ) : ℚ :=
  match updatedMs with
  | none => 0
  | some ms =>
    let ageDays := max 0 ((now - ms) / 86400000)
    let capped := min ageDays 180
    round3 (30 * (1 - capped / 180))

/-- Substring containment on character lists (model of JS
`String.prototype.includes`). -/
def charsContain (needle : List Char) : List Char → Bool
  | [] => needle.isEmpty
  | c :: rest => needle.isPrefixOf (c :: rest) || charsContain needle rest

/-- `tagExactnessWeight` from `shared.ts` (`none` models a non-string
`tags` column). -/
def tagExactnessWeight (tags : Option String) (queryTokens : List String) :
    ℚ :=
  match tags with
  | none => 0
  | some tagsStr =>
    if queryTokens.length = 0 then 0
    else
      let tagList := (parseTags tagsStr).map lowerString
      let tokenSet := queryTokens.map lowerString
      if tagList.any (fun tag => tokenSet.contains tag) then 18
      else if tagList.any (fun tag =>
          queryTokens.any (fun token => charsContain token.data tag.data)) then 8
      else 0

/-- `updateCountWeight` from `shared.ts` (the stored count coerced through
`Number`). -/
def updateCountWeight (count : ℚ) : ℚ :=
  if count ≤ 0 then 0 else min count 10 * 2

/-- `ftsWeight` from `shared.ts` (`none` models an absent or `NaN`
rank). -/
def ftsWeight (ftsRank : Option ℚ) : ℚ :=
  match ftsRank with
  | none => 0
  | some rank => round3 (max 0 (min 30 (-rank * 10)))

/-- The columns of a candidate row that `scoreMemory` reads.  `updatedMs`
is the already-parsed `updated_at` timestamp. -/
structure ScoreRow where
  updatedMs : Option ℚ
  tags : Option String
  updateCount : ℚ
  certainty : Option String
  ftsRank : Option ℚ

/-- `scoreMemory` from `shared.ts`: the sum of the five weighted signals,
rounded to 3 decimals. -/
def scoreMemory (now : ℚ) (row : ScoreRow) (queryTokens : List String) :
    ℚ :=
  round3 (recencyWeight now row.updatedMs
    + tagExactnessWeight row.tags queryTokens
    + updateCountWeight row.updateCount
    + certaintyWeight row.certainty
    + ftsWeight row.ftsRank)

/-! ### Suggestion merge (`mergeSuggestionResults` in `shared.ts`) -/

/-- A result row as seen by `mergeSuggestionResults`: its id, its score,
and the remaining JS object properties (carried along by the `{ ...row }`
spreads), modelled as an opaque key/value list. -/
structure MergeRow where
  id : ℤ
  score : ℚ
  rest : List (String × String)
  deriving Repr, DecidableEq

/-- `Map.set` on the insertion-ordered id-keyed map: replace in place, or
append when the id is new. -/
def mapSet (m : List MergeRow) (row : MergeRow) : List MergeRow :=
  if m.any (fun r => r.id = row.id) then
    m.map (fun r => if r.id = row.id then row else r)
  else m ++ [row]

/-- One step of the secondary loop of `mergeSuggestionResults`. -/
def mergeStep (m : List MergeRow) (row : MergeRow) : List MergeRow :=
  match m.find? (fun r => r.id = row.id) with
  | none => mapSet m { row with score := row.score + 12 }
  | some existing =>
    mapSet m { existing with score := round3 (max existing.score (row.score + 12)) }

/-- Stable descending insertion by score (model of JS
`sort((l, r) => r.score - l.score)`, which is stable). -/
def insertDesc (x : MergeRow) : List MergeRow → List MergeRow
  | [] => [x]
  | y :: ys => if y.score ≤ x.score then x :: y :: ys else y :: insertDesc x ys

/-- Stable sort, descending by score. -/
def sortByScoreDesc (l : List MergeRow) : List MergeRow :=
  l.foldr insertDesc []

/-- `mergeSuggestionResults` from `shared.ts`: primary rows are inserted
as-is, secondary rows receive the +12 bonus (new ids) or raise the stored
score to `max(existing, secondary + 12)` (existing ids, keeping the
existing row's other fields); the map values are sorted descending by
score and truncated to 20. -/
def mergeSuggestionResults (primary secondary : List MergeRow) :
    List MergeRow :=
  let m := secondary.foldl mergeStep (primary.foldl mapSet [])
  (sortByScoreDesc m).take 20

/-! ### Busy retry (`withBusyRetry` in `db.ts`) -/

/-- A storage-driver error: optional `code` plus message. -/
structure SqlErr where
  code : Option String
  message : String
  deriving Repr, DecidableEq

/-- `isBusyError` from `db.ts`: the code is `SQLITE_BUSY`/`SQLITE_LOCKED`
or the lower-cased message contains "database is locked". -/
def isBusyError (e : SqlErr) : Bool :=
  e.code = some "SQLITE_BUSY" || e.code = some "SQLITE_LOCKED"
    || charsContain "database is locked".data (e.message.data.map asciiLower)

/-- Default retry budget (`BUSY_RETRIES`, env default 6). -/
def BUSY_RETRIES : ℕ := 6

/-- Default backoff base in milliseconds (`BUSY_BACKOFF_MS`, env default
25). -/
def BUSY_BACKOFF_MS : ℚ := 25

/-- The sleep before retry number `attempts` (1-based):
`min(1000, max(1, BUSY_BACKOFF_MS * 2 ** (attempts - 1)))`. -/
def busySleep (attempts : ℕ) : ℚ :=
  min 1000 (max 1 (BUSY_BACKOFF_MS * 2 ^ (attempts - 1)))

/-- The retry loop of `withBusyRetry`.  `op n` is the outcome of the
`n`-th invocation of the operation (0-based); `budget` is the number of
retries still allowed (`BUSY_RETRIES - attempts`).  Returns the final
outcome and the list of backoff sleeps performed. -/
def withBusyRetryGo {α : Type} (op : ℕ → Except SqlErr α) :
    (attempt : ℕ) → (budget : ℕ) → Except SqlErr α × List ℚ
  | attempt, 0 => (op attempt, [])
  | attempt, b + 1 =>
    match op attempt with
    | .ok a => (.ok a, [])
    | .error e =>
      if isBusyError e then
        let r := withBusyRetryGo op (attempt + 1) b
        (r.1, busySleep (attempt + 1) :: r.2)
      else (.error e, [])

/-- `withBusyRetry` from `db.ts` (default budget): the final outcome. -/
def withBusyRetry {α : Type} (op : ℕ → Except SqlErr α) :
    Except SqlErr α :=
  (withBusyRetryGo op 0 BUSY_RETRIES).1

/-- The backoff sleeps performed by `withBusyRetry`. -/
def withBusyRetrySleeps {α : Type} (op : ℕ → Except SqlErr α) : List ℚ :=
  (withBusyRetryGo op 0 BUSY_RETRIES).2

/-! ### Storage schema state machine (`db.ts`) -/

/-- The columns added by `ensureMemoryTableColumns` and checked by
`isSchemaReady`. -/
def REQUIRED_COLUMNS : List String :=
  ["memory_type", "status", "superseded_by", "source_agent",
   "last_updated_by", "update_count", "certainty", "refs",
   "expires_after_days"]

/-- All columns of a freshly created `memories` table. -/
def BASE_COLUMNS : List String :=
  ["id", "content", "tags", "context"] ++ REQUIRED_COLUMNS
    ++ ["created_at", "updated_at"]

/-- The schema-level state of the store file. -/
structure DbState where
  hasMemories : Bool
  hasFts : Bool
  columns : List String
  userVersion : ℤ
  journalWal : Bool
  deriving Repr, DecidableEq

/-- `isSchemaReady` from `db.ts`. -/
def isSchemaReady (st : DbState) : Bool :=
  st.hasFts && REQUIRED_COLUMNS.all (fun c => st.columns.contains c)

/-- `ensureMemoryTableColumns` from `db.ts`: add each required column
that is missing. -/
def ensureMemoryTableColumns (cols : List String) : List String :=
  cols ++ REQUIRED_COLUMNS.filter (fun c => !cols.contains c)

/-- `migrateSchema` from `db.ts` at the schema level: a no-op when the
version is current and the structure is ready, otherwise (inside one
exclusive transaction) create the table if absent, add missing columns,
(re)create the FTS shadow table and persist the version. -/
def migrateSchema (st : DbState) : DbState :=
  if 1 ≤ st.userVersion ∧ isSchemaReady st then st
  else
    let st₁ : DbState := { st with journalWal := true }
    let st₂ : DbState :=
      if st₁.hasMemories then st₁
      else { st₁ with hasMemories := true, columns := BASE_COLUMNS }
    let st₃ : DbState :=
      { st₂ with columns := ensureMemoryTableColumns st₂.columns }
    let st₄ : DbState := { st₃ with hasFts := true }
    { st₄ with userVersion := 1 }

/-- Outcome of opening a read session: the resulting schema state plus
whether a migration ran, or a fail-fast error. -/
inductive ReadOpen where
  | opened (st : DbState) (migrated : Bool)
  | stale (msg : String)
  deriving Repr, DecidableEq

/-- The read-mode branch of `ensureDb` (`ensureSchemaReadable` from
`db.ts`): migrate when the `memories` table is absent; fail fast when the
schema is not ready; otherwise open unchanged. -/
def ensureDbRead (st : DbState) : ReadOpen :=
  if !st.hasMemories then .opened (migrateSchema st) true
  else if !isSchemaReady st then
    .stale ("Database schema is outdated. Run 'machine-memory migrate' "
      ++ "using a write-capable command.")
  else .opened st false

/-! ### Memory-type validation (`requireMemoryType` in `shared.ts`,
`normalizeImportEntry` in `maintenance.ts`) -/

/-- Outcome of a flag validation: the flag may be absent, accepted, or
the process prints a JSON error and exits. -/
inductive FlagCheck where
  | absent
  | accepted (value : String)
  | rejected (error : String)
  deriving Repr, DecidableEq

/-- `requireMemoryType` from `shared.ts` (`none` models an absent
`--type` flag). -/
def requireMemoryType (raw : Option String) : FlagCheck :=
  match raw with
  | none => .absent
  | some value =>
    if isMemoryType value then .accepted value
    else .rejected ("Invalid memory type '" ++ value
      ++ "'. Expected one of: " ++ String.intercalate ", " MEMORY_TYPES)

/-- Outcome of the per-entry memory-type step of `normalizeImportEntry`
in `maintenance.ts`. -/
inductive ImportTypeCheck where
  | ok (value : String)
  | skip (reason : String) (offending : String)
  deriving Repr, DecidableEq

/-- The memory-type validation of `normalizeImportEntry`: a missing or
non-string `memory_type` defaults to `"convention"`; an invalid value
skips the entry with reason `invalid_memory_type` and the offending
value. -/
def importMemoryTypeCheck (raw : Option String) : ImportTypeCheck :=
  let memoryTypeRaw := raw.getD "convention"
  if isMemoryType memoryTypeRaw then .ok memoryTypeRaw
  else .skip "invalid_memory_type" memoryTypeRaw

/-! ### Helper lemmas -/

theorem round3_mono {q q' : ℚ} (h : q ≤ q') : round3 q ≤ round3 q' := by
  unfold round3
  have hr : round (q * 1000) ≤ round (q' * 1000) := by
    rw [round_eq, round_eq]
    exact Int.floor_le_floor (by linarith)
  exact div_le_div_of_nonneg_right (by exact_mod_cast hr) (by norm_num)

theorem updateCountWeight_nonneg (c : ℚ) : 0 ≤ updateCountWeight c := by
  unfold updateCountWeight
  split_ifs with h
  · exact le_refl 0
  · push_neg at h
    have h10 : (0 : ℚ) < min c 10 := lt_min h (by norm_num)
    linarith

theorem updateCountWeight_mono {c₁ c₂ : ℚ} (h : c₁ ≤ c₂) :
    updateCountWeight c₁ ≤ updateCountWeight c₂ := by
  unfold updateCountWeight
  split_ifs with h₁ h₂ h₂
  · exact le_refl 0
  · push_neg at h₂
    have h10 : (0 : ℚ) < min c₂ 10 := lt_min h₂ (by norm_num)
    linarith
  · push_neg at h₁; linarith
  · have : min c₁ 10 ≤ min c₂ 10 := min_le_min h (le_refl 10)
    linarith

theorem recencyWeight_antitone {now d₁ d₂ : ℚ} (h : d₁ ≤ d₂) :
    recencyWeight now (some (now - d₂ * 86400000)) ≤
      recencyWeight now (some (now - d₁ * 86400000)) := by
  unfold recencyWeight
  simp only
  have hd : ∀ d : ℚ, (now - (now - d * 86400000)) / 86400000 = d := by
    intro d; field_simp
  rw [hd d₁, hd d₂]
  apply round3_mono
  have hmin : min (max 0 d₁) 180 ≤ min (max 0 d₂) 180 :=
    min_le_min (max_le_max (le_refl 0) h) (le_refl 180)
  have : min (max 0 d₁) 180 / 180 ≤ min (max 0 d₂) 180 / 180 :=
    div_le_div_of_nonneg_right hmin (by norm_num)
  linarith

/-! ### C1, C5, C9 -/

/-- C1: the certainty component of the score is 20 for records whose
stored certainty normalizes (through the legacy aliases) to `verified`,
10 for `inferred`, 2 for `speculative`; in particular the legacy value
`hard` receives 20. -/
theorem certainty_tier_weights :
    (∀ raw : String, canonicalizeCertainty raw = some "verified" →
      certaintyWeight (some raw) = 20) ∧
    (∀ raw : String, canonicalizeCertainty raw = some "inferred" →
      certaintyWeight (some raw) = 10) ∧
    (∀ raw : String, canonicalizeCertainty raw = some "speculative" →
      certaintyWeight (some raw) = 2) ∧
    certaintyWeight (some "hard") = 20 := by
  refine ⟨?_, ?_, ?_, by decide⟩ <;>
    · intro raw h
      simp [certaintyWeight, normalizeCertaintyValue, h]

/-- Witness for C1 at the three canonical inputs (discharging the
normalization hypotheses by computation). -/
theorem certainty_tier_weights_witness :
    certaintyWeight (some "verified") = 20 ∧
      certaintyWeight (some "soft") = 10 ∧
      certaintyWeight (some "uncertain") = 2 :=
  ⟨certainty_tier_weights.1 "verified" (by decide),
   certainty_tier_weights.2.1 "soft" (by decide),
   certainty_tier_weights.2.2.1 "uncertain" (by decide)⟩

/-- C5: for every pair of input strings the fact comparator flags
`conflict` exactly when the negation presence of the two strings differs
or the token-set Jaccard similarity is below 0.35; the added/removed term
lists are the two set differences capped at 12 entries; and the
similarity of two empty term sets is 1. -/
theorem compareFact_spec :
    (∀ stored candidate : String,
      (compareFact stored candidate).similarity =
          jaccardSimilarity (setFromTerms stored) (setFromTerms candidate) ∧
        ((compareFact stored candidate).conflict = true ↔
          (hasNegation stored ≠ hasNegation candidate ∨
            (compareFact stored candidate).similarity < 35/100)) ∧
        (compareFact stored candidate).addedTerms =
          (termsDifference (setFromTerms candidate)
            (setFromTerms stored)).take 12 ∧
        (compareFact stored candidate).removedTerms =
          (termsDifference (setFromTerms stored)
            (setFromTerms candidate)).take 12 ∧
        (compareFact stored candidate).addedTerms.length ≤ 12 ∧
        (compareFact stored candidate).removedTerms.length ≤ 12) ∧
    jaccardSimilarity [] [] = 1 := by
  refine ⟨fun stored candidate => ⟨rfl, ?_, rfl, rfl, ?_, ?_⟩, by decide⟩
  · simp [compareFact, Bool.or_eq_true, decide_eq_true_iff, bne_iff_ne]
  · exact List.length_take_le 12 _
  · exact List.length_take_le 12 _

/-- C9: holding the query tokens and the other row fields fixed, the
score is monotonically non-decreasing in `update_count` and monotonically
non-increasing in the number of days elapsed since `updated_at`. -/
theorem scoreMemory_monotonicity :
    (∀ (now : ℚ) (row : ScoreRow) (tokens : List String) (c₁ c₂ : ℚ),
      c₁ ≤ c₂ →
      scoreMemory now { row with updateCount := c₁ } tokens ≤
        scoreMemory now { row with updateCount := c₂ } tokens) ∧
    (∀ (now : ℚ) (row : ScoreRow) (tokens : List String) (d₁ d₂ : ℚ),
      d₁ ≤ d₂ →
      scoreMemory now { row with updatedMs := some (now - d₂ * 86400000) }
          tokens ≤
        scoreMemory now { row with updatedMs := some (now - d₁ * 86400000) }
          tokens) := by
  constructor
  · intro now row tokens c₁ c₂ h
    apply round3_mono
    have := updateCountWeight_mono h
    simp only
    linarith
  · intro now row tokens d₁ d₂ h
    apply round3_mono
    have := @recencyWeight_antitone now d₁ d₂ h
    simp only
    linarith

/-- Witness for C9 at concrete inputs. -/
theorem scoreMemory_monotonicity_witness :
    (1 : ℚ) ≤ 2 ∧
      scoreMemory 0 ⟨none, none, 1, none, none⟩ [] ≤
        scoreMemory 0 ⟨none, none, 2, none, none⟩ [] ∧
      scoreMemory 0 ⟨some (0 - 2 * 86400000), none, 0, none, none⟩ [] ≤
        scoreMemory 0 ⟨some (0 - 1 * 86400000), none, 0, none, none⟩ [] :=
  ⟨by norm_num,
   scoreMemory_monotonicity.1 0 ⟨none, none, 1, none, none⟩ [] 1 2
     (by norm_num),
   scoreMemory_monotonicity.2 0 ⟨none, none, 0, none, none⟩ [] 1 2
     (by norm_num)⟩

/-! ### C3: read-mode open -/

/-- C3 counterexample: on a fully uninitialized store (no tables at all)
a read-mode open runs the schema migration — a write — instead of never
writing, so the claim as stated fails on that initial state. -/
theorem read_open_migrates_on_uninitialized_store :
    ensureDbRead ⟨false, false, [], 0, false⟩ =
      .opened (migrateSchema ⟨false, false, [], 0, false⟩) true ∧
      migrateSchema ⟨false, false, [], 0, false⟩ ≠
        ⟨false, false, [], 0, false⟩ := by
  decide

/-- C3 (amended): whenever the `memories` table exists, a read-mode open
performs no migration and no write: it fails fast with the actionable
error when the schema is not current, and otherwise returns the store
unchanged. -/
theorem read_open_no_write_when_table_exists :
    ∀ st : DbState, st.hasMemories = true →
      (isSchemaReady st = false →
        ensureDbRead st =
          .stale ("Database schema is outdated. Run 'machine-memory "
            ++ "migrate' using a write-capable command.")) ∧
      (isSchemaReady st = true → ensureDbRead st = .opened st false) := by
  intro st h
  constructor <;> intro h₂ <;> simp [ensureDbRead, h, h₂]

/-- Witness for C3's amended theorem at two concrete stores: one stale
(fails fast) and one schema-current (opened unchanged, no migration). -/
theorem read_open_no_write_when_table_exists_witness :
    ensureDbRead ⟨true, false, [], 0, false⟩ =
      .stale ("Database schema is outdated. Run 'machine-memory "
        ++ "migrate' using a write-capable command.") ∧
    ensureDbRead ⟨true, true, BASE_COLUMNS, 1, true⟩ =
      .opened ⟨true, true, BASE_COLUMNS, 1, true⟩ false :=
  ⟨(read_open_no_write_when_table_exists ⟨true, false, [], 0, false⟩
      rfl).1 (by decide),
   (read_open_no_write_when_table_exists ⟨true, true, BASE_COLUMNS, 1, true⟩
      rfl).2 (by decide)⟩

/-! ### C6: suggestion merge -/

/-- C6 counterexample: merging an index-found row (score 50) with a
path-hint row (score 10) for the same id yields score 50 — the code keeps
`max(primary, secondary + 12)`, not "the higher of the two raw scores
plus 12" (which would be 62) — and it keeps the primary row's fields
instead of unioning any source labels.  Moreover a record found by both
signals (id 1) is outranked by a record found by the path hint alone
(id 2), since path-hint-only rows receive the same +12 bonus. -/
theorem mergeSuggestionResults_counterexample :
    mergeSuggestionResults [⟨1, 50, [("via", "index")]⟩]
        [⟨1, 10, [("via", "path")]⟩] = [⟨1, 50, [("via", "index")]⟩] ∧
      (50 : ℚ) ≠ max 50 10 + 12 ∧
      mergeSuggestionResults [⟨1, 5, []⟩] [⟨1, 5, []⟩, ⟨2, 20, []⟩] =
        [⟨2, 32, []⟩, ⟨1, 17, []⟩] := by
  refine ⟨?_, by norm_num, ?_⟩ <;>
    norm_num [mergeSuggestionResults, mergeStep, mapSet, sortByScoreDesc,
      insertDesc, round3, round_eq, List.find?]

/-- C6 (amended): merging an index-found and a path-hint result for the
same record id keeps the index-found row's fields and sets the score to
`max(index score, path score + 12)` (rounded to 3 decimals); a path-hint
result whose id has no index-found counterpart enters with its score plus
the +12 bonus. -/
theorem mergeSuggestionResults_same_id :
    (∀ p s : MergeRow, p.id = s.id →
      mergeSuggestionResults [p] [s] =
        [{ p with score := round3 (max p.score (s.score + 12)) }]) ∧
    (∀ s : MergeRow, mergeSuggestionResults [] [s] =
      [{ s with score := s.score + 12 }]) := by
  constructor
  · intro p s h
    simp [mergeSuggestionResults, mergeStep, mapSet, h, sortByScoreDesc,
      insertDesc, List.find?]
  · intro s
    simp [mergeSuggestionResults, mergeStep, mapSet, sortByScoreDesc,
      insertDesc, List.find?]

/-- Witness for C6's amended theorem at a concrete pair of rows. -/
theorem mergeSuggestionResults_same_id_witness :
    mergeSuggestionResults [⟨1, 50, []⟩] [⟨1, 10, []⟩] =
      [⟨1, round3 (max 50 (10 + 12)), []⟩] :=
  mergeSuggestionResults_same_id.1 ⟨1, 50, []⟩ ⟨1, 10, []⟩ rfl

/-! ### C7: busy retry -/

theorem withBusyRetryGo_all_busy {α : Type} (op : ℕ → Except SqlErr α)
    (e : ℕ → SqlErr) (hop : ∀ k, op k = .error (e k))
    (hbusy : ∀ k, isBusyError (e k) = true) :
    ∀ (b a : ℕ), withBusyRetryGo op a b =
      (.error (e (a + b)),
        (List.range b).map (fun i => busySleep (a + 1 + i))) := by
  intro b
  induction b with
  | zero => intro a; simp [withBusyRetryGo, hop]
  | succ b ih =>
    intro a
    rw [withBusyRetryGo, hop a]
    simp only [hbusy, if_true, ih (a + 1), Prod.mk.injEq]
    constructor
    · congr 2
      omega
    · rw [List.range_succ_eq_map]
      simp only [List.map_cons, List.map_map]
      refine congrArg₂ _ (by congr 1) ?_
      apply List.map_congr_left
      intro i _
      simp only [Function.comp_apply]
      congr 1
      omega

theorem withBusyRetryGo_ok {α : Type} (op : ℕ → Except SqlErr α) (x : α) :
    ∀ (n a b : ℕ), n ≤ b → op (a + n) = .ok x →
      (∀ k, k < n → ∃ e, op (a + k) = .error e ∧ isBusyError e = true) →
      (withBusyRetryGo op a b).1 = .ok x := by
  intro n
  induction n with
  | zero =>
    intro a b _ hok _
    rw [Nat.add_zero] at hok
    cases b with
    | zero => rw [withBusyRetryGo]; exact hok
    | succ b => rw [withBusyRetryGo, hok]
  | succ n ih =>
    intro a b hb hok hbusy
    cases b with
    | zero => omega
    | succ b =>
      obtain ⟨e, he, hbe⟩ := hbusy 0 (Nat.succ_pos n)
      rw [Nat.add_zero] at he
      rw [withBusyRetryGo, he]
      simp only [hbe, if_true]
      apply ih (a + 1) b (by omega)
      · rw [show a + 1 + n = a + (n + 1) by omega]
        exact hok
      · intro k hk
        obtain ⟨e', he', hbe'⟩ := hbusy (k + 1) (by omega)
        exact ⟨e', by rw [show a + 1 + k = a + (k + 1) by omega]; exact he',
          hbe'⟩

/-- C7: a storage operation's failure is retried exactly when it is a
busy/locked contention error: a non-contention first failure is surfaced
unchanged with no retry; with contention errors throughout, exactly
`BUSY_RETRIES = 6` backoff sleeps happen and the final attempt's error is
surfaced unchanged; a success within the budget after contention errors
is returned; and each default backoff sleep within the budget doubles the
previous one. -/
theorem withBusyRetry_spec :
    (∀ (op : ℕ → Except SqlErr ℤ) (e : SqlErr), op 0 = .error e →
      isBusyError e = false →
      withBusyRetry op = .error e ∧ withBusyRetrySleeps op = []) ∧
    (∀ (op : ℕ → Except SqlErr ℤ) (e : ℕ → SqlErr),
      (∀ k, op k = .error (e k)) → (∀ k, isBusyError (e k) = true) →
      withBusyRetry op = .error (e BUSY_RETRIES) ∧
        withBusyRetrySleeps op =
          (List.range BUSY_RETRIES).map (fun i => busySleep (1 + i))) ∧
    (∀ (op : ℕ → Except SqlErr ℤ) (x : ℤ) (n : ℕ), n ≤ BUSY_RETRIES →
      op n = .ok x →
      (∀ k, k < n → ∃ e, op k = .error e ∧ isBusyError e = true) →
      withBusyRetry op = .ok x) ∧
    (∀ i : ℕ, i + 1 < BUSY_RETRIES →
      busySleep (i + 2) = 2 * busySleep (i + 1)) := by
  refine ⟨?_, ?_, ?_, ?_⟩
  · intro op e hop hbusy
    unfold withBusyRetry withBusyRetrySleeps BUSY_RETRIES
    rw [withBusyRetryGo, hop]
    simp [hbusy]
  · intro op e hop hbusy
    unfold withBusyRetry withBusyRetrySleeps
    rw [withBusyRetryGo_all_busy op e hop hbusy]
    exact ⟨by simp, by simp⟩
  · intro op x n hn hok hbusy
    exact withBusyRetryGo_ok op x n 0 BUSY_RETRIES hn (by simpa using hok)
      (by simpa using hbusy)
  · intro i hi
    unfold busySleep BUSY_RETRIES BUSY_BACKOFF_MS at *
    have h₂ : (25 : ℚ) * 2 ^ (i + 2 - 1) = 2 * (25 * 2 ^ (i + 1 - 1)) := by
      rw [show i + 2 - 1 = (i + 1 - 1) + 1 by omega]
      ring
    rw [h₂]
    have hle : (25 : ℚ) * 2 ^ (i + 1 - 1) ≤ 400 := by
      have : (2 : ℚ) ^ (i + 1 - 1) ≤ 2 ^ 4 := by
        apply pow_le_pow_right₀ (by norm_num)
        omega
      norm_num at this ⊢
      linarith
    have hge : (1 : ℚ) ≤ 25 * 2 ^ (i + 1 - 1) := by
      have : (1 : ℚ) ≤ 2 ^ (i + 1 - 1) := one_le_pow₀ (by norm_num)
      linarith
    rw [max_eq_right hge, max_eq_right (by linarith),
      min_eq_right (by linarith), min_eq_right (by linarith)]

/-- Witness for C7: a non-contention error is surfaced with no retry; a
permanently locked store exhausts the six-retry budget with doubling
sleeps; a lock released before the third attempt ends in success. -/
theorem withBusyRetry_spec_witness :
    (withBusyRetry (α := ℤ)
          (fun _ => .error ⟨some "SQLITE_ERROR", "syntax error"⟩) =
        .error (⟨some "SQLITE_ERROR", "syntax error"⟩ : SqlErr) ∧
      withBusyRetrySleeps
        (fun _ => .error (⟨some "SQLITE_ERROR", "syntax error"⟩ : SqlErr))
          (α := ℤ) = []) ∧
    (withBusyRetry (α := ℤ)
          (fun _ => .error ⟨some "SQLITE_BUSY", "locked"⟩) =
        .error (⟨some "SQLITE_BUSY", "locked"⟩ : SqlErr) ∧
      withBusyRetrySleeps
        (fun _ => .error (⟨some "SQLITE_BUSY", "locked"⟩ : SqlErr))
          (α := ℤ) =
        (List.range BUSY_RETRIES).map (fun i => busySleep (1 + i))) ∧
    withBusyRetry (fun k => if k < 2 then
        .error ⟨some "SQLITE_BUSY", "locked"⟩ else .ok (42 : ℤ)) =
      .ok 42 :=
  ⟨withBusyRetry_spec.1 (fun _ => .error ⟨some "SQLITE_ERROR", "syntax error"⟩)
      ⟨some "SQLITE_ERROR", "syntax error"⟩ rfl (by decide),
   withBusyRetry_spec.2.1 (fun _ => .error ⟨some "SQLITE_BUSY", "locked"⟩)
      (fun _ => ⟨some "SQLITE_BUSY", "locked"⟩) (fun _ => rfl)
      (fun _ => by
        show isBusyError ⟨some "SQLITE_BUSY", "locked"⟩ = true
        decide),
   withBusyRetry_spec.2.2.1
      (fun k => if k < 2 then .error ⟨some "SQLITE_BUSY", "locked"⟩
        else .ok (42 : ℤ)) 42 2 (by decide) rfl
      (fun k hk => ⟨⟨some "SQLITE_BUSY", "locked"⟩, by
        simp [hk], by decide⟩)⟩

/-! ### C2: memory-type validation -/

/-- C2 counterexample: an import entry with an invalid `memory_type` is
skipped with reason `invalid_memory_type` plus the offending value; no
part of that structured result lists the expected value set, so the
claim's "rejected with an error listing the expected value set" fails
for entries of a bulk import. -/
theorem importMemoryTypeCheck_counterexample :
    importMemoryTypeCheck (some "bogus") =
        .skip "invalid_memory_type" "bogus" ∧
      MEMORY_TYPES.all (fun t =>
        !(charsContain t.data "invalid_memory_type".data
          || charsContain t.data "bogus".data)) = true := by
  decide

/-- C2 (amended): the memory-type validation accepts exactly the seven
enum values.  A flag value outside the set is rejected with an error
listing the expected value set; an import entry value outside the set is
skipped with reason `invalid_memory_type` and the offending value,
without listing the expected set. -/
theorem memory_type_validation :
    (∀ v : String, isMemoryType v = true ↔
      v ∈ ["decision", "convention", "gotcha", "preference", "constraint",
        "reference", "status"]) ∧
    (∀ v : String, isMemoryType v = true →
      requireMemoryType (some v) = .accepted v ∧
        importMemoryTypeCheck (some v) = .ok v) ∧
    (∀ v : String, isMemoryType v = false →
      requireMemoryType (some v) =
          .rejected ("Invalid memory type '" ++ v ++ "'. Expected one of: "
            ++ String.intercalate ", " MEMORY_TYPES) ∧
        importMemoryTypeCheck (some v) =
          .skip "invalid_memory_type" v) ∧
    String.intercalate ", " MEMORY_TYPES =
      "decision, convention, gotcha, preference, constraint, "
        ++ "reference, status" := by
  refine ⟨?_, ?_, ?_, by decide⟩
  · intro v
    simp [isMemoryType, MEMORY_TYPES]
  · intro v h
    exact ⟨by simp [requireMemoryType, h],
      by simp [importMemoryTypeCheck, h]⟩
  · intro v h
    exact ⟨by simp [requireMemoryType, h], by simp [importMemoryTypeCheck, h]⟩

/-- Witness for C2's amended theorem at an accepted value (`status`) and
a rejected value (`bogus`). -/
theorem memory_type_validation_witness :
    (requireMemoryType (some "status") = .accepted "status" ∧
      importMemoryTypeCheck (some "status") = .ok "status") ∧
    (requireMemoryType (some "bogus") =
        .rejected ("Invalid memory type '" ++ "bogus"
          ++ "'. Expected one of: "
          ++ String.intercalate ", " MEMORY_TYPES) ∧
      importMemoryTypeCheck (some "bogus") =
        .skip "invalid_memory_type" "bogus") :=
  ⟨memory_type_validation.2.1 "status" (by decide),
   memory_type_validation.2.2.1 "bogus" (by decide)⟩

/-! ### Store model (`memory-write.ts`, `memory-read.ts`)

The `memories` table is modelled as an ordered list of rows; SQL
`WHERE id = ?` statements act on the row with that id.  The external
full-text index and the bm25 rank are abstract parameters. -/

/-- A stored memory row (the columns the verified commands touch). -/
structure StoredMemory where
  id : ℤ
  content : String
  tags : String
  context : String
  status : String
  supersededBy : Option ℤ
  updateCount : ℤ
  deriving Repr, DecidableEq

/-- `getMemoryById` from `shared.ts` (`SELECT * FROM memories WHERE
id = ?`). -/
def getMemoryById (store : List StoredMemory) (id : ℤ) :
    Option StoredMemory :=
  store.find? (fun r => r.id = id)

/-- One `UPDATE memories SET ... WHERE id = ?` statement: rewrite the row
with the given id (a no-op when no row has it). -/
def runUpdateWhereId (f : StoredMemory → StoredMemory)
    (store : List StoredMemory) (targetId : ℤ) : List StoredMemory :=
  store.map (fun r => if r.id = targetId then f r else r)

/-- The row mutation of `handleUpdateCommand`: new content, bumped
`update_count` (the optional field flags are fixed upstream). -/
def applyContentUpdate (content : String) (r : StoredMemory) :
    StoredMemory :=
  { r with content := content, updateCount := r.updateCount + 1 }

/-- The row mutation of `handleDeprecateCommand`: status
`superseded_by`/`deprecated` according to the `--superseded-by` flag,
bumped `update_count`. -/
def applyDeprecate (supersededBy : Option ℤ) (r : StoredMemory) :
    StoredMemory :=
  { r with
    status := match supersededBy with
      | some _ => "superseded_by"
      | none => "deprecated"
    supersededBy := supersededBy
    updateCount := r.updateCount + 1 }

/-- Accumulated result of the per-id loops in `handleUpdateCommand` and
`handleDeprecateCommand`. -/
structure BatchResult where
  store : List StoredMemory
  rows : List StoredMemory
  missingIds : List ℤ
  deriving Repr, DecidableEq

/-- The per-id loop shared by update and deprecate: run the UPDATE for
each target id in order, then re-fetch the row, collecting it on success
and recording the id under `missingIds` otherwise — never aborting the
remainder of the batch. -/
def runBatchMemoryUpdate (f : StoredMemory → StoredMemory)
    (store : List StoredMemory) : List ℤ → BatchResult
  | [] => ⟨store, [], []⟩
  | targetId :: rest =>
    let store' := runUpdateWhereId f store targetId
    let tail := runBatchMemoryUpdate f store' rest
    match getMemoryById store' targetId with
    | some updated =>
      { tail with rows := updated :: tail.rows }
    | none =>
      { tail with missingIds := targetId :: tail.missingIds }

/-- The structured outputs printed by the verified commands
(`printJson` payloads). -/
inductive CmdOut where
  | row (r : StoredMemory)
  | notFound (msg : String)
  | updatedBatch (rows : List StoredMemory) (missing : List ℤ) (count : ℕ)
  | deprecatedBatch (rows : List StoredMemory) (missing : List ℤ)
      (count : ℕ)
  | deletedOne (id : ℤ)
  | deletedMany (ids : List ℤ) (count : ℕ)
  deriving Repr, DecidableEq

/-- `handleGetCommand` from `memory-read.ts`: the row, or the structured
`{ error: "Not found" }` payload. -/
def handleGet (store : List StoredMemory) (id : ℤ) : CmdOut :=
  match getMemoryById store id with
  | some r => .row r
  | none => .notFound "Not found"

/-- `handleUpdateCommand` from `memory-write.ts` (target ids already
resolved, content already resolved): the batch loop plus the
single-versus-batch output shape. -/
def handleUpdate (store : List StoredMemory) (targetIds : List ℤ)
    (content : String) : List StoredMemory × CmdOut :=
  let res := runBatchMemoryUpdate (applyContentUpdate content) store
    targetIds
  if targetIds.length = 1 then
    (res.store,
      match res.rows.head? with
      | some r => .row r
      | none => .notFound "Not found")
  else
    (res.store, .updatedBatch res.rows res.missingIds res.rows.length)

/-- `handleDeprecateCommand` from `memory-write.ts` (target ids already
resolved, the self-supersession guard already passed). -/
def handleDeprecate (store : List StoredMemory) (targetIds : List ℤ)
    (supersededBy : Option ℤ) : List StoredMemory × CmdOut :=
  let res := runBatchMemoryUpdate (applyDeprecate supersededBy) store
    targetIds
  if targetIds.length = 1 then
    (res.store,
      match res.rows.head? with
      | some r => .row r
      | none => .notFound "Not found")
  else
    (res.store, .deprecatedBatch res.rows res.missingIds res.rows.length)

/-- `handleDeleteCommand` from `memory-write.ts`: one `DELETE ... WHERE
id = ?` per id (a no-op for absent ids), then a `{ deleted }` payload
that reports every requested id. -/
def handleDelete (store : List StoredMemory) (ids : List ℤ) :
    List StoredMemory × CmdOut :=
  let store' := ids.foldl
    (fun acc id => acc.filter (fun r => r.id ≠ id)) store
  match ids with
  | [id] => (store', .deletedOne id)
  | _ => (store', .deletedMany ids ids.length)

/-! ### Conflict search on add (`detectPotentialConflicts`,
`handleAddCommand`) -/

/-- Stable descending insertion by a rational key. -/
def insertDescBy {α : Type} (key : α → ℚ) (x : α) :
    List α → List α
  | [] => [x]
  | y :: ys =>
    if key y ≤ key x then x :: y :: ys else y :: insertDescBy key x ys

/-- Stable sort, descending by a rational key (ascending orders use a
negated key). -/
def sortDescBy {α : Type} (key : α → ℚ) (l : List α) : List α :=
  l.foldr (insertDescBy key) []

/-- `detectPotentialConflicts` from `shared.ts`.  `ftsMatch` is the
external FTS5 `MATCH` predicate for the built query and `bm25` the
external rank; the SQL selects active rows matching the index (minus the
excluded id), ordered by ascending bm25, limited; `shapeRowsWithScore`
then orders the surviving rows by descending score.  When no usable term
exists (`buildFtsQueryFromTerms` is `none`), no search runs and the
result is empty. -/
def detectPotentialConflicts (ftsMatch : StoredMemory → Bool)
    (bm25 score : StoredMemory → ℚ) (store : List StoredMemory)
    (terms : List String) (excludeId : Option ℤ) (limit : ℕ) :
    List StoredMemory :=
  match buildFtsQueryFromTerms terms with
  | none => []
  | some _ =>
    let selected := (sortDescBy (fun r => -(bm25 r))
      (store.filter (fun r => ftsMatch r && r.status = "active" &&
        (match excludeId with
         | none => true
         | some i => decide (r.id ≠ i))))).take limit
    sortDescBy score selected

/-- Result of `handleAddCommand`. -/
structure AddResult where
  newStore : List StoredMemory
  createdId : ℤ
  potentialConflicts : List StoredMemory
  deriving Repr, DecidableEq

/-- `handleAddCommand` from `memory-write.ts`: the potential-conflict
search runs against the pre-insert store (no excluded id, limit 5), and
only then is the new row inserted with status `active`.  `newId` is the
fresh AUTOINCREMENT key picked by the storage engine;
`includeConflicts` is false under `--no-conflicts` or minimal output. -/
def handleAdd (ftsMatch : StoredMemory → Bool)
    (bm25 score : StoredMemory → ℚ) (store : List StoredMemory)
    (newId : ℤ) (content tags context : String)
    (includeConflicts : Bool) : AddResult :=
  let terms := extractTerms (content ++ " " ++ tags ++ " " ++ context)
  let conflicts :=
    if includeConflicts then
      detectPotentialConflicts ftsMatch bm25 score store terms none 5
    else []
  { newStore := store ++
      [{ id := newId, content := content, tags := tags, context := context,
         status := "active", supersededBy := none, updateCount := 0 }]
    createdId := newId
    potentialConflicts := conflicts }

/-! ### Lemmas about the store model -/

theorem getMemoryById_none_iff (store : List StoredMemory) (i : ℤ) :
    getMemoryById store i = none ↔ ∀ r ∈ store, r.id ≠ i := by
  unfold getMemoryById
  simp [List.find?_eq_none]

theorem getMemoryById_runUpdateWhereId_none
    {f : StoredMemory → StoredMemory} (hf : ∀ r, (f r).id = r.id)
    (store : List StoredMemory) (tid i : ℤ) :
    getMemoryById (runUpdateWhereId f store tid) i = none ↔
      getMemoryById store i = none := by
  rw [getMemoryById_none_iff, getMemoryById_none_iff]
  unfold runUpdateWhereId
  constructor
  · intro h r hr
    have := h (if r.id = tid then f r else r) (List.mem_map.2 ⟨r, hr, rfl⟩)
    by_cases hc : r.id = tid
    · simpa [hc, hf] using this
    · simpa [hc] using this
  · intro h r hr
    obtain ⟨r₀, hr₀, rfl⟩ := List.mem_map.1 hr
    by_cases hc : r₀.id = tid
    · simpa [hc, hf] using h r₀ hr₀
    · simpa [hc] using h r₀ hr₀

theorem runBatchMemoryUpdate_spec
    {f : StoredMemory → StoredMemory} (hf : ∀ r, (f r).id = r.id) :
    ∀ (ids : List ℤ) (store : List StoredMemory),
      (runBatchMemoryUpdate f store ids).missingIds =
        ids.filter (fun i => (getMemoryById store i).isNone) ∧
      (runBatchMemoryUpdate f store ids).rows.length +
        (runBatchMemoryUpdate f store ids).missingIds.length =
        ids.length := by
  intro ids
  induction ids with
  | nil => intro store; simp [runBatchMemoryUpdate]
  | cons id rest ih =>
    intro store
    have hpres := getMemoryById_runUpdateWhereId_none hf store id
    have hfilter :
        rest.filter (fun i =>
            (getMemoryById (runUpdateWhereId f store id) i).isNone) =
          rest.filter (fun i => (getMemoryById store i).isNone) := by
      apply List.filter_congr
      intro i _
      apply Bool.eq_iff_iff.2
      rw [Option.isNone_iff_eq_none, Option.isNone_iff_eq_none]
      exact hpres i
    obtain ⟨ih₁, ih₂⟩ := ih (runUpdateWhereId f store id)
    rw [hfilter] at ih₁
    unfold runBatchMemoryUpdate
    rcases hcase : getMemoryById (runUpdateWhereId f store id) id with
      _ | u
    · have hnone : getMemoryById store id = none := (hpres id).1 hcase
      have hcond : (getMemoryById store id).isNone = true := by
        rw [Option.isNone_iff_eq_none]; exact hnone
      simp only [hcase, List.filter_cons, hcond, if_true]
      constructor
      · rw [ih₁]
      · simp only [List.length_cons]
        omega
    · have hsome : ¬ getMemoryById store id = none := by
        intro hn
        rw [(hpres id).2 hn] at hcase
        exact Option.noConfusion hcase
      have hcond : (getMemoryById store id).isNone = false := by
        rw [Bool.eq_false_iff]
        intro hc
        exact hsome (Option.isNone_iff_eq_none.1 hc)
      simp only [hcase, List.filter_cons, hcond, Bool.false_eq_true,
        if_false]
      constructor
      · rw [ih₁]
      · simp only [List.length_cons]
        omega

theorem mem_foldl_filter_start :
    ∀ (ids : List ℤ) (store : List StoredMemory) (r : StoredMemory),
      r ∈ ids.foldl (fun acc i => acc.filter (fun x => x.id ≠ i)) store →
      r ∈ store := by
  intro ids
  induction ids with
  | nil => intro store r h; simpa using h
  | cons i rest ih =>
    intro store r h
    rw [List.foldl_cons] at h
    exact List.mem_of_mem_filter (ih _ r h)

theorem mem_foldl_filter_not_target :
    ∀ (ids : List ℤ) (store : List StoredMemory) (r : StoredMemory),
      r ∈ ids.foldl (fun acc i => acc.filter (fun x => x.id ≠ i)) store →
      ∀ i ∈ ids, r.id ≠ i := by
  intro ids
  induction ids with
  | nil => intro store r _ i hi; cases hi
  | cons i rest ih =>
    intro store r h j hj
    rw [List.foldl_cons] at h
    rcases List.mem_cons.1 hj with rfl | hj'
    · have hstart := mem_foldl_filter_start rest
        (store.filter (fun x => x.id ≠ j)) r h
      simpa using List.of_mem_filter hstart
    · exact ih _ r h j hj'

/-! ### C8: not-found handling -/

/-- C8 counterexample: delete over a nonexistent id reports
`{ deleted: 5 }` — exactly the payload it reports when the row exists —
rather than any structured not-found value. -/
theorem delete_missing_id_counterexample :
    handleDelete [] [5] = ([], .deletedOne 5) ∧
      handleDelete [⟨5, "x", "", "", "active", none, 0⟩] [5] =
        ([], .deletedOne 5) ∧
      CmdOut.deletedOne 5 ≠ CmdOut.notFound "Not found" := by
  refine ⟨rfl, by decide, by decide⟩

/-- C8 (amended): get, update and deprecate surface a structured
not-found result for a nonexistent id (single forms print
`{ error: "Not found" }`); batch update/deprecate report per-id success
or not-found and process every id without aborting (the row and missing
lists partition the requested ids); delete removes the targeted rows but
reports every requested id as deleted without distinguishing nonexistent
ones. -/
theorem not_found_handling :
    (∀ (store : List StoredMemory) (id : ℤ),
      getMemoryById store id = none →
      handleGet store id = .notFound "Not found") ∧
    (∀ (store : List StoredMemory) (id : ℤ) (content : String),
      getMemoryById store id = none →
      (handleUpdate store [id] content).2 = .notFound "Not found") ∧
    (∀ (store : List StoredMemory) (id : ℤ) (sb : Option ℤ),
      getMemoryById store id = none →
      (handleDeprecate store [id] sb).2 = .notFound "Not found") ∧
    (∀ (store : List StoredMemory) (ids : List ℤ) (content : String),
      ids.length ≠ 1 →
      (handleUpdate store ids content).2 =
        .updatedBatch
          (runBatchMemoryUpdate (applyContentUpdate content) store ids).rows
          (ids.filter (fun i => (getMemoryById store i).isNone))
          (runBatchMemoryUpdate (applyContentUpdate content) store
            ids).rows.length ∧
      (runBatchMemoryUpdate (applyContentUpdate content) store
          ids).rows.length +
        (ids.filter (fun i => (getMemoryById store i).isNone)).length =
        ids.length) ∧
    (∀ (store : List StoredMemory) (ids : List ℤ) (sb : Option ℤ),
      ids.length ≠ 1 →
      (handleDeprecate store ids sb).2 =
        .deprecatedBatch
          (runBatchMemoryUpdate (applyDeprecate sb) store ids).rows
          (ids.filter (fun i => (getMemoryById store i).isNone))
          (runBatchMemoryUpdate (applyDeprecate sb) store
            ids).rows.length ∧
      (runBatchMemoryUpdate (applyDeprecate sb) store ids).rows.length +
        (ids.filter (fun i => (getMemoryById store i).isNone)).length =
        ids.length) ∧
    (∀ (store : List StoredMemory) (id : ℤ),
      (handleDelete store [id]).2 = .deletedOne id) ∧
    (∀ (store : List StoredMemory) (ids : List ℤ) (r : StoredMemory),
      r ∈ (handleDelete store ids).1 → r ∈ store ∧ ∀ i ∈ ids, r.id ≠ i) := by
  have hfu : ∀ content (r : StoredMemory),
      (applyContentUpdate content r).id = r.id := by
    intro content r; rfl
  have hfd : ∀ sb (r : StoredMemory), (applyDeprecate sb r).id = r.id := by
    intro sb r; rfl
  refine ⟨?_, ?_, ?_, ?_, ?_, ?_, ?_⟩
  · intro store id h
    unfold handleGet
    rw [h]
  · intro store id content h
    unfold handleUpdate runBatchMemoryUpdate runBatchMemoryUpdate
    have : getMemoryById (runUpdateWhereId (applyContentUpdate content)
        store id) id = none :=
      (getMemoryById_runUpdateWhereId_none (hfu content) store id id).2 h
    simp [this]
  · intro store id sb h
    unfold handleDeprecate runBatchMemoryUpdate runBatchMemoryUpdate
    have : getMemoryById (runUpdateWhereId (applyDeprecate sb)
        store id) id = none :=
      (getMemoryById_runUpdateWhereId_none (hfd sb) store id id).2 h
    simp [this]
  · intro store ids content h
    obtain ⟨h₁, h₂⟩ := runBatchMemoryUpdate_spec (hfu content) ids store
    constructor
    · unfold handleUpdate
      simp only [h, if_false]
      rw [h₁]
    · rw [← h₁]; exact h₂
  · intro store ids sb h
    obtain ⟨h₁, h₂⟩ := runBatchMemoryUpdate_spec (hfd sb) ids store
    constructor
    · unfold handleDeprecate
      simp only [h, if_false]
      rw [h₁]
    · rw [← h₁]; exact h₂
  · intro store id
    rfl
  · intro store ids r h
    have hfst : (handleDelete store ids).1 =
        ids.foldl (fun acc i => acc.filter (fun x => x.id ≠ i)) store := by
      unfold handleDelete
      match ids with
      | [] => rfl
      | [_] => rfl
      | _ :: _ :: _ => rfl
    rw [hfst] at h
    exact ⟨mem_foldl_filter_start ids store r h,
      mem_foldl_filter_not_target ids store r h⟩

/-- Witness for C8's amended theorem: a one-row store, a missing id 2
(single get/update/deprecate not-found), a mixed batch over ids 1 and 2,
and a delete of the existing row. -/
theorem not_found_handling_witness :
    handleGet [⟨1, "a", "", "", "active", none, 0⟩] 2 =
        .notFound "Not found" ∧
      (handleUpdate [⟨1, "a", "", "", "active", none, 0⟩] [2] "b").2 =
        .notFound "Not found" ∧
      (handleDeprecate [⟨1, "a", "", "", "active", none, 0⟩] [2] none).2 =
        .notFound "Not found" ∧
      (handleUpdate [⟨1, "a", "", "", "active", none, 0⟩] [1, 2] "b").2 =
        .updatedBatch
          (runBatchMemoryUpdate (applyContentUpdate "b")
            [⟨1, "a", "", "", "active", none, 0⟩] [1, 2]).rows
          ([1, 2].filter (fun i =>
            (getMemoryById [⟨1, "a", "", "", "active", none, 0⟩]
              i).isNone))
          (runBatchMemoryUpdate (applyContentUpdate "b")
            [⟨1, "a", "", "", "active", none, 0⟩] [1, 2]).rows.length ∧
      (handleDelete [⟨1, "a", "", "", "active", none, 0⟩] [1]).2 =
        .deletedOne 1 :=
  ⟨not_found_handling.1 [⟨1, "a", "", "", "active", none, 0⟩] 2
     (by decide),
   not_found_handling.2.1 [⟨1, "a", "", "", "active", none, 0⟩] 2 "b"
     (by decide),
   not_found_handling.2.2.1 [⟨1, "a", "", "", "active", none, 0⟩] 2 none
     (by decide),
   (not_found_handling.2.2.2.1 [⟨1, "a", "", "", "active", none, 0⟩]
     [1, 2] "b" (by decide)).1,
   not_found_handling.2.2.2.2.2.1 [⟨1, "a", "", "", "active", none, 0⟩] 1⟩

/-! ### C10: add-time conflict search -/

theorem mem_insertDescBy {α : Type} (key : α → ℚ) (y x : α) :
    ∀ l : List α, x ∈ insertDescBy key y l ↔ x = y ∨ x ∈ l := by
  intro l
  induction l with
  | nil => simp [insertDescBy]
  | cons z zs ih =>
    unfold insertDescBy
    split_ifs with h
    · constructor
      · intro hm
        rcases List.mem_cons.1 hm with rfl | hm'
        · exact Or.inl rfl
        · exact Or.inr hm'
      · intro hm
        rcases hm with rfl | hm'
        · exact List.mem_cons_self _ _
        · exact List.mem_cons_of_mem _ hm'
    · constructor
      · intro hm
        rcases List.mem_cons.1 hm with rfl | hm'
        · exact Or.inr (List.mem_cons_self _ _)
        · rcases (ih.1 hm') with h' | h'
          · exact Or.inl h'
          · exact Or.inr (List.mem_cons_of_mem _ h')
      · intro hm
        rcases hm with rfl | hm'
        · exact List.mem_cons_of_mem _ (ih.2 (Or.inl rfl))
        · rcases List.mem_cons.1 hm' with rfl | h'
          · exact List.mem_cons_self _ _
          · exact List.mem_cons_of_mem _ (ih.2 (Or.inr h'))

theorem mem_sortDescBy {α : Type} (key : α → ℚ) (x : α) :
    ∀ l : List α, x ∈ sortDescBy key l ↔ x ∈ l := by
  intro l
  induction l with
  | nil => simp [sortDescBy]
  | cons z zs ih =>
    unfold sortDescBy at *
    rw [List.foldr_cons, mem_insertDescBy, ih, List.mem_cons]

/-- C10: the potential-conflict list of an add invocation is computed
against the pre-insert store and filtered to `status = 'active'`, so
every reported conflict is an active record of the prior store and is
never the newly created record (whose id is fresh), and no deprecated or
superseded record appears. -/
theorem add_conflicts_active_and_fresh :
    ∀ (ftsMatch : StoredMemory → Bool) (bm25 score : StoredMemory → ℚ)
      (store : List StoredMemory) (newId : ℤ)
      (content tags context : String) (inc : Bool),
      (∀ r ∈ store, r.id ≠ newId) →
      ∀ r ∈ (handleAdd ftsMatch bm25 score store newId content tags
          context inc).potentialConflicts,
        r.status = "active" ∧ r ∈ store ∧ r.id ≠ newId := by
  intro ftsMatch bm25 score store newId content tags context inc hfresh r hr
  unfold handleAdd at hr
  simp only at hr
  by_cases hinc : inc = true
  · rw [hinc] at hr
    simp only [if_true] at hr
    unfold detectPotentialConflicts at hr
    rcases hq : buildFtsQueryFromTerms (extractTerms
        (content ++ " " ++ tags ++ " " ++ context)) with _ | q
    · rw [hq] at hr
      cases hr
    · rw [hq] at hr
      simp only at hr
      have hsel := (mem_sortDescBy score r _).1 hr
      have htake := List.take_subset _ _ hsel
      have hfil := (mem_sortDescBy (fun r => -(bm25 r)) r _).1 htake
      have hmem := List.mem_of_mem_filter hfil
      have hpred := List.of_mem_filter hfil
      simp only [Bool.and_eq_true, decide_eq_true_eq] at hpred
      exact ⟨hpred.1.2, hmem, hfresh r hmem⟩
  · rw [Bool.not_eq_true] at hinc
    rw [hinc] at hr
    simp at hr

/-- Witness for C10: a one-row active store; the conflict search (with a
total match predicate) returns that row, which is active, in the prior
store, and distinct from the fresh id 2. -/
theorem add_conflicts_active_and_fresh_witness :
    (⟨1, "auth jwt", "", "", "active", none, 0⟩ : StoredMemory).status =
        "active" ∧
      (⟨1, "auth jwt", "", "", "active", none, 0⟩ : StoredMemory) ∈
        [(⟨1, "auth jwt", "", "", "active", none, 0⟩ : StoredMemory)] ∧
      (⟨1, "auth jwt", "", "", "active", none, 0⟩ : StoredMemory).id ≠
        2 :=
  add_conflicts_active_and_fresh (fun _ => true) (fun _ => 0) (fun _ => 0)
    [⟨1, "auth jwt", "", "", "active", none, 0⟩] 2 "auth jwt token" "" ""
    true (by decide) ⟨1, "auth jwt", "", "", "active", none, 0⟩
    (by decide)

/-! ### Doctor near-duplicate sweep (`commands/doctor.ts`)

`detectNearDuplicates` scans the active rows in order, looking up each
row's candidate partners in an incrementally built postings index before
inserting the row's own tokens.  The JS `Map<string, number[]>` is
modelled as a total function `String → List ℕ` with default `[]`: the
consumer skips a missing token (`if (!indexes) continue`) and the
producer reads `postings.get(token) ?? []`, so a missing key is
observationally the empty list. -/

/-- The fields of a doctor `MemorySnapshot` that the near-duplicate scan
reads; `termSet` is the duplicate-free token list of
`setFromTerms([content, tags, context].join(" "))`. -/
structure MemorySnapshot where
  id : ℤ
  termSet : List String
  deriving Repr, DecidableEq

/-- `NEAR_DUPLICATE_THRESHOLD` from `doctor.ts`. -/
def NEAR_DUPLICATE_THRESHOLD : ℚ := 78/100

/-- `NEAR_DUPLICATE_MAX_CANDIDATES` from `doctor.ts`. -/
def NEAR_DUPLICATE_MAX_CANDIDATES : ℕ := 120

/-- `MAX_POSTINGS_PER_TOKEN` from `doctor.ts`. -/
def MAX_POSTINGS_PER_TOKEN : ℕ := 200

/-- The postings index: token → indexes of already-scanned rows. -/
def Postings : Type := String → List ℕ

/-- The inner loop of `candidateIndexes`: add one postings list to the
candidate set (a JS `Set` in insertion order), returning early — flagged
by the boolean — when the candidate cap is reached after an insertion. -/
def addCandidates (cand : List ℕ) : List ℕ → List ℕ × Bool
  | [] => (cand, false)
  | i :: rest =>
    let cand' := if cand.contains i then cand else cand ++ [i]
    if NEAR_DUPLICATE_MAX_CANDIDATES ≤ cand'.length then (cand', true)
    else addCandidates cand' rest

/-- The token loop of `candidateIndexes`. -/
def candidateLoop (postings : Postings) :
    List String → List ℕ → List ℕ
  | [], cand => cand
  | t :: rest, cand =>
    let r := addCandidates cand (postings t)
    if r.2 then r.1 else candidateLoop postings rest r.1

/-- `candidateIndexes` from `doctor.ts`: intersecting the postings lists
of up to the first 12 tokens, capped at 120 candidates. -/
def candidateIndexes (termSet : List String) (postings : Postings) :
    List ℕ :=
  candidateLoop postings (termSet.take 12) []

/-- `upsertPostings` from `doctor.ts`: append the row index to each of
the row's tokens, unless that token's list is already at the 200-entry
cap. -/
def upsertPostings (postings : Postings) (termSet : List String)
    (rowIndex : ℕ) : Postings :=
  termSet.foldl (fun p token =>
    if (p token).length < MAX_POSTINGS_PER_TOKEN then
      Function.update p token (p token ++ [rowIndex])
    else p) postings

/-- `isComparableNearDuplicate` from `doctor.ts`: the candidate must
exist, differ from the row, and not share the row's exact-duplicate group
key (`dupKey` is the `duplicateKeyById` map). -/
def isComparableNearDuplicate (row : MemorySnapshot)
    (candidate : Option MemorySnapshot) (dupKey : ℤ → Option String) :
    Bool :=
  match candidate with
  | none => false
  | some c =>
    if c.id = row.id then false
    else
      match dupKey row.id, dupKey c.id with
      | some leftKey, some rightKey => !(leftKey = rightKey)
      | _, _ => true

/-- One candidate step of `bestNearDuplicateForRow`. -/
def bestStep (row : MemorySnapshot) (rows : List MemorySnapshot)
    (dupKey : ℤ → Option String) (best : Option (ℤ × ℚ)) (ci : ℕ) :
    Option (ℤ × ℚ) :=
  match rows.get? ci with
  | none => best
  | some c =>
    if isComparableNearDuplicate row (some c) dupKey then
      let sim := jaccardSimilarity row.termSet c.termSet
      if sim < NEAR_DUPLICATE_THRESHOLD then best
      else
        match best with
        | none => some (c.id, sim)
        | some b => if b.2 < sim then some (c.id, sim) else best
    else best

/-- `bestNearDuplicateForRow` from `doctor.ts`: the comparable candidate
with the highest Jaccard similarity at or above the threshold, if any. -/
def bestNearDuplicateForRow (row : MemorySnapshot)
    (rows : List MemorySnapshot) (candidates : List ℕ)
    (dupKey : ℤ → Option String) : Option (ℤ × ℚ) :=
  candidates.foldl (bestStep row rows dupKey) none

/-- A `near_duplicate` finding. -/
structure NearDuplicateFinding where
  keepId : ℤ
  duplicateId : ℤ
  similarity : ℚ
  deriving Repr, DecidableEq

/-- The pairs `(rowIndex, candidateIndex)` whose term sets the scan
actually compares for one row: the candidates passing
`isComparableNearDuplicate` (an audit trail of `detectNearDuplicates`;
the similarity computation happens exactly for these). -/
def comparedFrom (row : MemorySnapshot) (rows : List MemorySnapshot)
    (dupKey : ℤ → Option String) (rowIndex : ℕ)
    (candidates : List ℕ) : List (ℕ × ℕ) :=
  (candidates.filter (fun ci =>
    isComparableNearDuplicate row (rows.get? ci) dupKey)).map
    (fun ci => (rowIndex, ci))

/-- The scan loop of `detectNearDuplicates`, instrumented with the list
of compared index pairs.  `pending` is `rows.drop rowIndex`; a row with
an empty term set is skipped entirely (its tokens are not inserted);
otherwise candidates are looked up *before* `upsertPostings` inserts the
row's own tokens. -/
def nearDupScanGo (rows : List MemorySnapshot)
    (dupKey : ℤ → Option String) :
    List MemorySnapshot → ℕ → Postings →
      List NearDuplicateFinding × List (ℕ × ℕ)
  | [], _, _ => ([], [])
  | row :: pending, rowIndex, postings =>
    if row.termSet.length = 0 then
      nearDupScanGo rows dupKey pending (rowIndex + 1) postings
    else
      let cands := candidateIndexes row.termSet postings
      let best := bestNearDuplicateForRow row rows cands dupKey
      let pairs := comparedFrom row rows dupKey rowIndex cands
      let tail := nearDupScanGo rows dupKey pending (rowIndex + 1)
        (upsertPostings postings row.termSet rowIndex)
      (match best with
       | some b => ⟨b.1, row.id, b.2⟩ :: tail.1
       | none => tail.1,
       pairs ++ tail.2)

/-- `detectNearDuplicates` from `doctor.ts`. -/
def detectNearDuplicates (rows : List MemorySnapshot)
    (dupKey : ℤ → Option String) : List NearDuplicateFinding :=
  (nearDupScanGo rows dupKey rows 0 (fun _ => [])).1

/-- The audit trail: every index pair whose similarity the scan
computes. -/
def nearDupComparedPairs (rows : List MemorySnapshot)
    (dupKey : ℤ → Option String) : List (ℕ × ℕ) :=
  (nearDupScanGo rows dupKey rows 0 (fun _ => [])).2

/-- The scan invariant on the postings index at step `n`: every list
holds only indexes of rows scanned strictly before `n`, at most 200 of
them. -/
def PostingsBelow (postings : Postings) (n : ℕ) : Prop :=
  ∀ t : String, (∀ x ∈ postings t, x < n) ∧
    (postings t).length ≤ MAX_POSTINGS_PER_TOKEN



theorem addCandidates_spec :
    ∀ (idxs cand : List ℕ), cand.Nodup →
      cand.length < NEAR_DUPLICATE_MAX_CANDIDATES →
      ((addCandidates cand idxs).1.Nodup ∧
        (∀ x ∈ (addCandidates cand idxs).1, x ∈ cand ∨ x ∈ idxs) ∧
        (addCandidates cand idxs).1.length ≤
          NEAR_DUPLICATE_MAX_CANDIDATES ∧
        ((addCandidates cand idxs).2 = false →
          (addCandidates cand idxs).1.length <
            NEAR_DUPLICATE_MAX_CANDIDATES)) := by
  intro idxs
  induction idxs with
  | nil =>
    intro cand hnd hlen
    exact ⟨hnd, fun x hx => Or.inl hx, le_of_lt hlen, fun _ => hlen⟩
  | cons i rest ih =>
    intro cand hnd hlen
    unfold addCandidates
    dsimp only
    set cand' := if cand.contains i then cand else cand ++ [i] with hc'
    have hnd' : cand'.Nodup := by
      rw [hc']
      split_ifs with hc
      · exact hnd
      · have hni : i ∉ cand := by simpa using hc
        simp [List.nodup_append, hnd, hni]
    have hsub' : ∀ x ∈ cand', x ∈ cand ∨ x = i := by
      intro x hx
      rw [hc'] at hx
      split_ifs at hx with hc
      · exact Or.inl hx
      · rcases List.mem_append.1 hx with h | h
        · exact Or.inl h
        · exact Or.inr (by simpa using h)
    have hlen' : cand'.length ≤ cand.length + 1 := by
      rw [hc']
      split_ifs
      · omega
      · simp
    split_ifs with h120
    · refine ⟨hnd', ?_, ?_, fun h => by simp at h⟩
      · intro x hx
        rcases hsub' x hx with h | rfl
        · exact Or.inl h
        · exact Or.inr (List.mem_cons_self _ _)
      · show cand'.length ≤ NEAR_DUPLICATE_MAX_CANDIDATES
        omega
    · push_neg at h120
      obtain ⟨a, b, c, d⟩ := ih cand' hnd' h120
      refine ⟨a, ?_, c, d⟩
      intro x hx
      rcases b x hx with h | h
      · rcases hsub' x h with h' | rfl
        · exact Or.inl h'
        · exact Or.inr (List.mem_cons_self _ _)
      · exact Or.inr (List.mem_cons_of_mem _ h)

theorem candidateLoop_spec (P : ℕ → Prop) (postings : Postings)
    (hp : ∀ t, ∀ x ∈ postings t, P x) :
    ∀ (tokens : List String) (cand : List ℕ), cand.Nodup →
      cand.length < NEAR_DUPLICATE_MAX_CANDIDATES →
      (∀ x ∈ cand, P x) →
      ((candidateLoop postings tokens cand).Nodup ∧
        (candidateLoop postings tokens cand).length ≤
          NEAR_DUPLICATE_MAX_CANDIDATES ∧
        (∀ x ∈ candidateLoop postings tokens cand, P x)) := by
  intro tokens
  induction tokens with
  | nil =>
    intro cand hnd hlen hb
    exact ⟨hnd, le_of_lt hlen, hb⟩
  | cons t rest ih =>
    intro cand hnd hlen hb
    unfold candidateLoop
    dsimp only
    obtain ⟨a, b, c, d⟩ := addCandidates_spec (postings t) cand hnd hlen
    have hbound : ∀ x ∈ (addCandidates cand (postings t)).1, P x := by
      intro x hx
      rcases b x hx with h | h
      · exact hb x h
      · exact hp t x h
    split_ifs with hcap
    · exact ⟨a, c, hbound⟩
    · have hfalse : (addCandidates cand (postings t)).2 = false := by
        simpa using hcap
      exact ih _ a (d hfalse) hbound

theorem candidateIndexes_spec (P : ℕ → Prop) (postings : Postings)
    (hp : ∀ t, ∀ x ∈ postings t, P x) (termSet : List String) :
    (candidateIndexes termSet postings).Nodup ∧
      (candidateIndexes termSet postings).length ≤
        NEAR_DUPLICATE_MAX_CANDIDATES ∧
      (∀ x ∈ candidateIndexes termSet postings, P x) :=
  candidateLoop_spec P postings hp (termSet.take 12) [] (by simp)
    (by norm_num [NEAR_DUPLICATE_MAX_CANDIDATES]) (by simp)

theorem candidateIndexes_take12 (termSet : List String)
    (postings : Postings) :
    candidateIndexes termSet postings =
      candidateIndexes (termSet.take 12) postings := by
  unfold candidateIndexes
  rw [List.take_take]
  simp

theorem upsertPostings_below {postings : Postings} {n : ℕ}
    (h : PostingsBelow postings n) (termSet : List String) :
    PostingsBelow (upsertPostings postings termSet n) (n + 1) := by
  have start : ∀ t, (∀ x ∈ postings t, x < n + 1) ∧
      (postings t).length ≤ MAX_POSTINGS_PER_TOKEN := by
    intro t
    exact ⟨fun x hx => Nat.lt_succ_of_lt ((h t).1 x hx), (h t).2⟩
  unfold upsertPostings PostingsBelow
  clear h
  induction termSet generalizing postings with
  | nil => exact start
  | cons token rest ih =>
    rw [List.foldl_cons]
    apply ih
    intro t
    split_ifs with hcap
    · by_cases ht : t = token
      · subst ht
        rw [Function.update_same]
        constructor
        · intro x hx
          rcases List.mem_append.1 hx with hx' | hx'
          · exact (start t).1 x hx'
          · simp only [List.mem_singleton] at hx'
            omega
        · simp only [List.length_append, List.length_singleton]
          omega
      · rw [Function.update_noteq ht]
        exact start t
    · exact start t

theorem bestFold_threshold (row : MemorySnapshot)
    (rows : List MemorySnapshot) (dupKey : ℤ → Option String) :
    ∀ (cands : List ℕ) (acc : Option (ℤ × ℚ)),
      (∀ b, acc = some b → NEAR_DUPLICATE_THRESHOLD ≤ b.2) →
      ∀ b, cands.foldl (bestStep row rows dupKey) acc = some b →
        NEAR_DUPLICATE_THRESHOLD ≤ b.2 := by
  intro cands
  induction cands with
  | nil =>
    intro acc hacc b hb
    exact hacc b hb
  | cons ci rest ih =>
    intro acc hacc b hb
    rw [List.foldl_cons] at hb
    refine ih _ ?_ b hb
    intro b' hb'
    unfold bestStep at hb'
    rcases hrow : rows.get? ci with _ | c
    · rw [hrow] at hb'
      exact hacc b' hb'
    · rw [hrow] at hb'
      simp only at hb'
      split_ifs at hb' with hcomp hsim
      · exact hacc b' hb'
      · push_neg at hsim
        rcases hcase : acc with _ | b₀
        · rw [hcase] at hb'
          simp only [Option.some.injEq] at hb'
          rw [← hb']
          exact hsim
        · rw [hcase] at hb'
          simp only at hb'
          split_ifs at hb' with hbetter
          · simp only [Option.some.injEq] at hb'
            rw [← hb']
            exact hsim
          · exact hacc b' (hcase ▸ hb')
      · exact hacc b' hb'

theorem nearDupScanGo_spec (rows : List MemorySnapshot)
    (dupKey : ℤ → Option String) :
    ∀ (pending : List MemorySnapshot) (i : ℕ) (postings : Postings),
      PostingsBelow postings i →
      pending = rows.drop i →
      ((∀ p ∈ (nearDupScanGo rows dupKey pending i postings).2,
          p.2 < p.1 ∧ i ≤ p.1) ∧
        (nearDupScanGo rows dupKey pending i postings).2.Nodup ∧
        (∀ p ∈ (nearDupScanGo rows dupKey pending i postings).2,
          ∀ ri rj, rows.get? p.1 = some ri → rows.get? p.2 = some rj →
            isComparableNearDuplicate ri (some rj) dupKey = true) ∧
        (∀ f ∈ (nearDupScanGo rows dupKey pending i postings).1,
          NEAR_DUPLICATE_THRESHOLD ≤ f.similarity)) := by
  intro pending
  induction pending with
  | nil =>
    intro i postings _ _
    simp [nearDupScanGo]
  | cons row pending ih =>
    intro i postings hpost hdrop
    have hrowi : rows.get? i = some row := by
      have h0 := List.getElem?_drop rows i 0
      rw [← hdrop] at h0
      simpa [List.get?_eq_getElem?] using h0.symm
    have hdrop' : pending = rows.drop (i + 1) := by
      have h0 := List.tail_drop rows i
      rw [← hdrop] at h0
      simpa using h0
    unfold nearDupScanGo
    dsimp only
    split_ifs with hempty
    · have hpost' : PostingsBelow postings (i + 1) := by
        intro t
        exact ⟨fun x hx => Nat.lt_succ_of_lt ((hpost t).1 x hx),
          (hpost t).2⟩
      obtain ⟨a, b, c, d⟩ := ih (i + 1) postings hpost' hdrop'
      exact ⟨fun p hp => ⟨(a p hp).1, le_trans (Nat.le_succ i) (a p hp).2⟩,
        b, c, d⟩
    · obtain ⟨hcnd, _, hcb⟩ :=
        candidateIndexes_spec (fun x => x < i) postings
          (fun t => (hpost t).1) row.termSet
      have hpost' : PostingsBelow (upsertPostings postings row.termSet i)
          (i + 1) := upsertPostings_below hpost row.termSet
      obtain ⟨a, b, c, d⟩ := ih (i + 1) _ hpost' hdrop'
      have hpairs : ∀ p ∈ comparedFrom row rows dupKey i
          (candidateIndexes row.termSet postings),
          p.1 = i ∧ p.2 ∈ (candidateIndexes row.termSet postings) ∧
            isComparableNearDuplicate row (rows.get? p.2) dupKey = true := by
        intro p hp
        unfold comparedFrom at hp
        obtain ⟨ci, hci, rfl⟩ := List.mem_map.1 hp
        have h1 := List.mem_of_mem_filter hci
        have h2 := List.of_mem_filter hci
        exact ⟨rfl, h1, h2⟩
      have hpairs_nodup : (comparedFrom row rows dupKey i
          (candidateIndexes row.termSet postings)).Nodup := by
        unfold comparedFrom
        apply List.Nodup.map
        · intro x y h
          simpa using h
        · exact hcnd.filter _
      refine ⟨?_, ?_, ?_, ?_⟩
      · intro p hp
        rcases List.mem_append.1 hp with hp' | hp'
        · obtain ⟨h1, h2, _⟩ := hpairs p hp'
          exact ⟨by rw [h1]; exact hcb p.2 h2, le_of_eq h1.symm⟩
        · exact ⟨(a p hp').1, le_trans (Nat.le_succ i) (a p hp').2⟩
      · rw [List.nodup_append]
        refine ⟨hpairs_nodup, b, ?_⟩
        intro p hp hq
        obtain ⟨h1, _, _⟩ := hpairs p hp
        have := (a p hq).2
        omega
      · intro p hp ri rj hri hrj
        rcases List.mem_append.1 hp with hp' | hp'
        · obtain ⟨h1, _, h3⟩ := hpairs p hp'
          rw [h1] at hri
          rw [hrowi] at hri
          have hr : ri = row := by
            injection hri with h
            exact h.symm
          rw [hrj] at h3
          rw [hr]
          exact h3
        · exact c p hp' ri rj hri hrj
      · rcases hbest : bestNearDuplicateForRow row rows
            (candidateIndexes row.termSet postings) dupKey with _ | bb
        · simp only [hbest]
          exact d
        · simp only [hbest]
          intro f hf
          rcases List.mem_cons.1 hf with rfl | hf'
          · have := bestFold_threshold row rows dupKey
              (candidateIndexes row.termSet postings) none
              (fun b h => by cases h) bb hbest
            exact this
          · exact d f hf'

/-- C4: in the doctor near-duplicate sweep, every unordered pair of
records is compared at most once (the audit trail of compared index pairs
is duplicate-free, each pair compares a row only against
earlier-scanned rows, and no pair recurs with its components swapped);
records sharing an exact-duplicate group key are never compared;
a near_duplicate finding is reported only at Jaccard similarity at least
the 0.78 threshold; candidate generation uses only the first 12 of the
record's tokens and yields at most 120 candidate partners; and the
postings index the scan maintains keeps at most 200 postings per token. -/
theorem doctor_near_duplicate_invariants :
    (∀ (rows : List MemorySnapshot) (dupKey : ℤ → Option String),
      (nearDupComparedPairs rows dupKey).Nodup ∧
        (∀ p ∈ nearDupComparedPairs rows dupKey, p.2 < p.1) ∧
        (∀ p ∈ nearDupComparedPairs rows dupKey,
          ∀ q ∈ nearDupComparedPairs rows dupKey,
            ¬(p.1 = q.2 ∧ p.2 = q.1)) ∧
        (∀ p ∈ nearDupComparedPairs rows dupKey, ∀ ri rj,
          rows.get? p.1 = some ri → rows.get? p.2 = some rj →
          ∀ k, ¬(dupKey ri.id = some k ∧ dupKey rj.id = some k)) ∧
        (∀ f ∈ detectNearDuplicates rows dupKey,
          NEAR_DUPLICATE_THRESHOLD ≤ f.similarity)) ∧
    (∀ (termSet : List String) (postings : Postings),
      candidateIndexes termSet postings =
        candidateIndexes (termSet.take 12) postings ∧
      (candidateIndexes termSet postings).length ≤
        NEAR_DUPLICATE_MAX_CANDIDATES) ∧
    PostingsBelow (fun _ => []) 0 ∧
    (∀ (postings : Postings) (n : ℕ), PostingsBelow postings n →
      ∀ termSet : List String,
        PostingsBelow (upsertPostings postings termSet n) (n + 1)) := by
  refine ⟨?_, ?_, ?_, ?_⟩
  · intro rows dupKey
    obtain ⟨a, b, c, d⟩ := nearDupScanGo_spec rows dupKey rows 0
      (fun _ => []) (fun t => ⟨fun x hx => absurd hx (List.not_mem_nil x),
        by simp [MAX_POSTINGS_PER_TOKEN]⟩) (by simp)
    refine ⟨b, fun p hp => (a p hp).1, ?_, ?_, d⟩
    · intro p hp q hq ⟨h1, h2⟩
      have hp' := (a p hp).1
      have hq' := (a q hq).1
      omega
    · intro p hp ri rj hri hrj k ⟨hk1, hk2⟩
      have hcomp := c p hp ri rj hri hrj
      simp only [isComparableNearDuplicate] at hcomp
      rw [hk1, hk2] at hcomp
      split_ifs at hcomp with hid
      all_goals simp at hcomp
  · intro termSet postings
    refine ⟨candidateIndexes_take12 termSet postings, ?_⟩
    exact (candidateIndexes_spec (fun _ => True) postings
      (fun t x _ => trivial) termSet).2.1
  · intro t
    exact ⟨fun x hx => absurd hx (List.not_mem_nil x),
      by simp [MAX_POSTINGS_PER_TOKEN]⟩
  · intro postings n h termSet
    exact upsertPostings_below h termSet

/-- Witness for C4 on a two-row corpus with identical term sets: the
scan compares exactly the pair (row 1, row 0), reports the pair as a
near-duplicate at similarity 1 ≥ 0.78, and the postings bound is
preserved from the empty index. -/
theorem doctor_near_duplicate_invariants_witness :
    (0 : ℕ) < 1 ∧
      ¬((1 : ℕ) = 0 ∧ (0 : ℕ) = 1) ∧
      ¬((none : Option String) = some "k" ∧
        (none : Option String) = some "k") ∧
      NEAR_DUPLICATE_THRESHOLD ≤
        (⟨1, 2, 1⟩ : NearDuplicateFinding).similarity ∧
      PostingsBelow (upsertPostings (fun _ => []) ["auth"] 0) 1 := by
  have hpair : ((1, 0) : ℕ × ℕ) ∈
      nearDupComparedPairs [⟨1, ["auth", "jwt"]⟩, ⟨2, ["auth", "jwt"]⟩]
        (fun _ => none) := by decide
  have hmem : (⟨1, 2, 1⟩ : NearDuplicateFinding) ∈
      detectNearDuplicates [⟨1, ["auth", "jwt"]⟩, ⟨2, ["auth", "jwt"]⟩]
        (fun _ => none) := by
    have hb : bestStep (⟨2, ["auth", "jwt"]⟩ : MemorySnapshot)
        [⟨1, ["auth", "jwt"]⟩, ⟨2, ["auth", "jwt"]⟩] (fun _ => none)
          none 0 = some (1, 1) := by
      unfold bestStep
      simp only [List.get?_cons_zero, isComparableNearDuplicate,
        jaccardSimilarity, dedupFirst, List.filter_cons, List.filter_nil]
      simp
      norm_num [round3, round_eq, NEAR_DUPLICATE_THRESHOLD]
    simp only [detectNearDuplicates, nearDupScanGo, candidateIndexes,
      candidateLoop, addCandidates, upsertPostings,
      bestNearDuplicateForRow, comparedFrom,
      NEAR_DUPLICATE_MAX_CANDIDATES, MAX_POSTINGS_PER_TOKEN,
      Function.update, List.filter_cons, List.filter_nil,
      List.foldl_cons, List.foldl_nil, List.get?_cons_zero,
      List.get?_cons_succ]
    norm_num [hb]
  exact ⟨(doctor_near_duplicate_invariants.1
      [⟨1, ["auth", "jwt"]⟩, ⟨2, ["auth", "jwt"]⟩]
      (fun _ => none)).2.1 (1, 0) hpair,
    (doctor_near_duplicate_invariants.1
      [⟨1, ["auth", "jwt"]⟩, ⟨2, ["auth", "jwt"]⟩]
      (fun _ => none)).2.2.1 (1, 0) hpair (1, 0) hpair,
    (doctor_near_duplicate_invariants.1
      [⟨1, ["auth", "jwt"]⟩, ⟨2, ["auth", "jwt"]⟩]
      (fun _ => none)).2.2.2.1 (1, 0) hpair ⟨2, ["auth", "jwt"]⟩
      ⟨1, ["auth", "jwt"]⟩ (by decide) (by decide) "k",
    (doctor_near_duplicate_invariants.1
      [⟨1, ["auth", "jwt"]⟩, ⟨2, ["auth", "jwt"]⟩]
      (fun _ => none)).2.2.2.2 ⟨1, 2, 1⟩ hmem,
    doctor_near_duplicate_invariants.2.2.2 (fun _ => []) 0
      doctor_near_duplicate_invariants.2.2.1 ["auth"]⟩

end MachineMemory
